import Mathlib

/-!
Verification development for the ORE yield-curve builder
(`ored/marketdata/yieldcurve.cpp`, here `src/unnamed/part_001`).

The development shallowly embeds the curve-building data model and the
algorithms of `YieldCurve`: the piecewise bootstrap result and its
"decoupling" (snapshot) rebuild, the direct zero/discount curve builders,
the curve-composition formulas (weighted average, yield-plus-default) and
the multi-start fitted-bond builder.  Dates are embedded as integers,
quote values as rationals, and curve values as reals.  Machinery that the
repository takes from external libraries (interpolated-curve evaluation,
the Halton low-discrepancy sequence) is modelled from the specification's
description, as flagged in the individual doc comments.
-/

namespace OreYieldCurve

/-- Interpolation variable of a yield curve (`YieldCurve::InterpolationVariable`
in the source: `Zero`, `Discount`, `Forward`). -/
inductive InterpolationVariable
  | Zero
  | Discount
  | Forward
  deriving DecidableEq, Repr

/-- Interpolation methods recognised by `parseYieldCurveInterpolationMethod`
in the source (the parametric fitting families `ExponentialSplines`,
`NelsonSiegel`, `Svensson` are kept separate below as `FittingMethod`). -/
inductive InterpolationMethod
  | Linear
  | LogLinear
  | NaturalCubic
  | FinancialCubic
  | ConvexMonotone
  | Quadratic
  | LogQuadratic
  | Hermite
  | CubicSpline
  deriving DecidableEq, Repr

/-- A pillar node: (time from reference, value in the interpolation variable). -/
abbrev Node := ℝ × ℝ

/-- An interpolation scheme turns a node list into a continuous evaluator.
Every method of the source's `buildYieldCurve` factory (Linear, LogLinear,
Cubic variants, ConvexMonotone, Quadratic, LogQuadratic) is an interpolant:
at a node time it reproduces the node value.  That is the only property of
the schemes the theorems below use, captured by `InterpReproduces`. -/
def InterpScheme := List Node → ℝ → ℝ

/-- Strictly increasing node times (the source sorts instruments with
`BootstrapHelperSorter` and rejects duplicate pillar dates). -/
abbrev NodesSorted (ns : List Node) : Prop :=
  ns.Chain' (fun p q => p.1 < q.1)

/-- An interpolation scheme reproduces its node values at the node times. -/
def InterpReproduces (I : InterpScheme) : Prop :=
  ∀ ns : List Node, NodesSorted ns → ∀ p ∈ ns, I ns p.1 = p.2

/-- Linear interpolation, the `InterpolationMethod::Linear` case of the
source's `buildYieldCurve` factory: affine between consecutive nodes,
last value beyond the last node. -/
noncomputable def linearInterp : List Node → ℝ → ℝ
  | [], _ => 0
  | [p], _ => p.2
  | p :: q :: rest, t =>
    if t < q.1 then p.2 + (t - p.1) * (q.2 - p.2) / (q.1 - p.1)
    else linearInterp (q :: rest) t
termination_by ns _ => ns.length

/-- Modelled from the spec: curve evaluation semantics of the interpolated
curve classes the builders instantiate (`InterpolatedZeroCurve`,
`InterpolatedDiscountCurve`, `InterpolatedForwardCurve`), which live in the
external QuantLib library.  Per the spec, the value's meaning is fixed by
the interpolation variable: a continuously compounded zero rate gives
discount(t) = exp(-z(t)*t), a discount factor is used directly, and an
instantaneous forward rate is integrated, discount(t) = exp(-∫_0^t f). -/
noncomputable def discountOf : InterpolationVariable → (ℝ → ℝ) → ℝ → ℝ
  | .Zero, ev, t => Real.exp (-(ev t * t))
  | .Discount, ev, t => ev t
  | .Forward, ev, t => Real.exp (-(∫ s in (0:ℝ)..t, ev s))

/-! ## Bootstrapped curve and the decoupling rebuild (`piecewisecurve`) -/

/-- Modelled from the spec: the node list of the live bootstrapped
`PiecewiseYieldCurve` over the solved pillar values — a node at time 0
(the as-of date) followed by the instrument pillars.  For the Discount
variable the time-0 value is the reference discount factor 1; for the
Zero and Forward variables the bootstrap leaves the time-0 node equal to
the first pillar's value (spec invariant: "pillar 0 has value consistent
with discount(0)=1"). -/
def liveNodes (var : InterpolationVariable) (ts vs : List ℝ) : List Node :=
  match var with
  | .Discount => (0, 1) :: ts.zip vs
  | _ => (0, vs.headD 0) :: ts.zip vs

/-- The snapshot value arrays of `YieldCurve::piecewisecurve` (source
lines 595-610): index 0 belongs to the as-of date; for i ≥ 1 the solved
curve is re-sampled at pillar i (its zero rate, discount factor or
instantaneous forward — whichever is the curve's interpolation variable,
here the evaluator `live`); `zeros[0]` and `forwards[0]` are then copied
from index 1 while `discounts[0]` keeps its initialised value 1.0. -/
def snapshotValues (var : InterpolationVariable) (live : ℝ → ℝ) (ts : List ℝ) : List ℝ :=
  match var with
  | .Discount => 1 :: ts.map live
  | _ => (ts.map live).headD 0 :: ts.map live

/-- The fixed-curve nodes rebuilt by the decoupling branch of
`piecewisecurve` (source lines 595-618): the as-of date plus the pillar
dates, against the snapshot values. -/
def snapshotNodes (var : InterpolationVariable) (live : ℝ → ℝ) (ts : List ℝ) : List Node :=
  ((0:ℝ) :: ts).zip (snapshotValues var live ts)

/-- The result of `piecewisecurve`: with `preserveQuoteLinkage` the live
bootstrapped curve, still a function of the current market state (quotes
and valuation date, of abstract type σ); without it a fixed curve holding
plain snapshot numbers. -/
inductive BuiltCurve (σ : Type) where
  | linked (solve : σ → ℝ → ℝ)
  | fixed (nodes : List Node)

/-- The dispatch at the end of `YieldCurve::piecewisecurve` (source lines
586-619): keep the live curve when `preserveQuoteLinkage` is set,
otherwise rebuild a fixed curve over the values sampled in the build-time
market state q0. -/
def piecewisecurve (σ : Type) (preserveQuoteLinkage : Bool)
    (var : InterpolationVariable) (ts : List ℝ) (solve : σ → ℝ → ℝ) (q0 : σ) :
    BuiltCurve σ :=
  if preserveQuoteLinkage then .linked solve
  else .fixed (snapshotNodes var (solve q0) ts)

/-- Evaluate a built curve's discount at time t in market state q: a
linked curve re-solves against the current state, a fixed curve only
reads its stored nodes. -/
noncomputable def BuiltCurve.eval {σ : Type} (I : InterpScheme)
    (var : InterpolationVariable) : BuiltCurve σ → σ → ℝ → ℝ
  | .linked solve, q, t => discountOf var (solve q) t
  | .fixed ns, _, t => discountOf var (I ns) t

/-! ## Curve composition algebra -/

/-- Modelled from the spec: `WeightedYieldTermStructure` (built by
`YieldCurve::buildWeightedAverageCurve`, source lines 809-822; the class
itself lives outside `src/`).  Per the spec,
discount(t) = exp(w1 * ln D1(t) + w2 * ln D2(t)); weights need not sum
to 1. -/
noncomputable def weightedAverageDiscount (w1 w2 : ℝ) (d1 d2 : ℝ → ℝ) (t : ℝ) : ℝ :=
  Real.exp (w1 * Real.log (d1 t) + w2 * Real.log (d2 t))

/-- One default-curve component of a yield-plus-default blend: survival
probability curve, recovery-rate quote and blend weight (the three parallel
vectors `defaultCurves`, `recRates`, `segment->weights()` of
`YieldCurve::buildYieldPlusDefaultCurve`, source lines 824-844). -/
structure DefaultComponent where
  survival : ℝ → ℝ
  recovery : ℝ
  weight : ℝ

/-- Modelled from the spec: the per-component factor
[surv_k(t) + (1 - surv_k(t)) * recovery_k] ^ weight_k of
`YieldPlusDefaultYieldTermStructure` (the class lives outside `src/`). -/
noncomputable def defaultFactor (c : DefaultComponent) (t : ℝ) : ℝ :=
  (c.survival t + (1 - c.survival t) * c.recovery) ^ c.weight

/-- Modelled from the spec: the yield-plus-default blend
discount(t) = baseDiscount(t) * prod_k factor_k(t). -/
noncomputable def yieldPlusDefaultDiscount (base : ℝ → ℝ) (cs : List DefaultComponent)
    (t : ℝ) : ℝ :=
  base t * (cs.map (fun c => defaultFactor c t)).prod

/-! ## Constructor error handling -/

/-- The exception kinds distinguished by the catch blocks of the
`YieldCurve` constructor (source lines 300-307): `QuantLib::Error` carrying
a message (every numeric failure raised through `QL_FAIL` / `QL_REQUIRE`
inside the solvers and builders), other `std::exception`, and anything
else. -/
inductive BuildException
  | qlError (msg : String)
  | stdError (msg : String)
  | unknownError
  deriving DecidableEq, Repr

/-- The message of the error re-signalled by the constructor's catch blocks
(source lines 300-307). -/
def rethrowMessage (curveId dateStr : String) : BuildException → String
  | .qlError msg =>
      "yield curve building failed for curve " ++ curveId ++ " on date " ++ dateStr
        ++ ": " ++ msg
  | .stdError msg => msg
  | .unknownError => "unknown error"

/-- The message an exception carries when it propagates unmodified (its
own what()). -/
def rawMessage : BuildException → String
  | .qlError msg => msg
  | .stdError msg => msg
  | .unknownError => "unknown error"

/-- A lazily bootstrapped piecewise curve as stored by the constructor:
its numeric bootstrap failure, if any, is raised only when the curve is
first evaluated (the piecewise curve calculates on demand). -/
structure LazyCurve where
  bootstrapError : Option String

/-- Evaluating the lazy curve raises the deferred bootstrap failure as a
QuantLib error, or succeeds. -/
def LazyCurve.evaluate (c : LazyCurve) : Except BuildException Unit :=
  match c.bootstrapError with
  | some msg => .error (.qlError msg)
  | none => .ok ()

/-- Whether the constructor's try body itself evaluates the curve: the
decoupling branch of `piecewisecurve` re-samples the solved curve
(source lines 595-618, taken when `preserveQuoteLinkage` is false), and
the calibration-info population evaluates zero rates and discounts at
the pillar dates (source lines 284-298, when `buildCalibrationInfo` is
set).  With `preserveQuoteLinkage` and no calibration info, nothing in
the try body forces the bootstrap. -/
def bodyEvaluatesCurve (preserveQuoteLinkage buildCalibrationInfo : Bool) : Bool :=
  !preserveQuoteLinkage || buildCalibrationInfo

/-- The constructor's error plumbing (source lines 206-313): the try
body builds the curve — and on the decoupling / calibration-info paths
already evaluates it, so a deferred bootstrap failure raised there is
caught and rewritten by the catch blocks (lines 300-307); the forced
bootstrap `h_->discount(QL_EPSILON)` at line 310 sits outside the
try/catch, so a failure deferred to that point propagates with its
original message only. -/
def yieldCurveCtor (curveId dateStr : String)
    (preserveQuoteLinkage buildCalibrationInfo : Bool)
    (body : Except BuildException LazyCurve) : Except String Unit :=
  match body with
  | .error e => .error (rethrowMessage curveId dateStr e)
  | .ok curve =>
    if bodyEvaluatesCurve preserveQuoteLinkage buildCalibrationInfo then
      match curve.evaluate with
      | .error e => .error (rethrowMessage curveId dateStr e)
      | .ok _ => .ok ()
    else
      match curve.evaluate with
      | .error e => .error (rawMessage e)
      | .ok _ => .ok ()

/-! ## Fitted-bond builder: tolerance and acceptance -/

/-- Tolerance of the fitted-bond builder: `globalAccuracy` when provided
(the source tests it against `Null<Real>`, modelled as `Option`), else
`accuracy` (source lines 1287-1289). -/
def fittedTolerance (globalAccuracy : Option ℚ) (accuracy : ℚ) : ℚ :=
  globalAccuracy.getD accuracy

/-- Acceptance step of `buildFittedBondCurve` (source lines 1287-1308):
the result is rejected fatally unless `dontThrow` is set or the best cost
is below the tolerance; on acceptance the achieved cost is written to the
calibration info when calibration info is being built. -/
def fittedFinalize (dontThrow buildCalibrationInfo : Bool) (minError : ℚ)
    (globalAccuracy : Option ℚ) (accuracy : ℚ) : Except String (Option ℚ) :=
  if dontThrow || decide (minError < fittedTolerance globalAccuracy accuracy) then
    .ok (if buildCalibrationInfo then some minError else none)
  else
    .error "Fitted Bond Curve cost value exceeds tolerance"

/-! ## Direct zero / discount curve builders -/

/-- The time-zero insertion of `buildZeroCurve` (source lines 686-692):
when the earliest quote date lies strictly after the as-of date, a
synthetic point at the as-of date carrying the earliest quote's zero rate
is inserted at the front of the sorted (date, rate) data. -/
def insertTimeZeroZero (asof : ℤ) (data : List (ℤ × ℚ)) : List (ℤ × ℚ) :=
  match data with
  | [] => []
  | (d, r) :: _ => if asof < d then (asof, r) :: data else data

/-- The time-zero insertion of `buildDiscountCurve` (source lines 923-926):
when the earliest quote date lies strictly after the as-of date, a
synthetic point (as-of date, 1.0) is inserted at the front. -/
def insertTimeZeroDiscount (asof : ℤ) (data : List (ℤ × ℚ)) : List (ℤ × ℚ) :=
  match data with
  | [] => []
  | (d, _) :: _ => if asof < d then (asof, 1) :: data else data

/-- Data assembly of `buildZeroCurve`: non-empty quote data is required,
the time-zero point is inserted, and more than one point must remain
(source lines 682-695). -/
def buildZeroCurveData (asof : ℤ) (data : List (ℤ × ℚ)) : Except String (List (ℤ × ℚ)) :=
  if data.isEmpty then .error "No market data found for curve spec"
  else
    let d := insertTimeZeroZero asof data
    if d.length ≤ 1 then
      .error "The single zero rate quote provided should be associated with a date greater than as of date."
    else .ok d

/-- Data assembly of `buildDiscountCurve` (source lines 920-929). -/
def buildDiscountCurveData (asof : ℤ) (data : List (ℤ × ℚ)) :
    Except String (List (ℤ × ℚ)) :=
  if data.isEmpty then .error "No market data found for curve spec"
  else
    let d := insertTimeZeroDiscount asof data
    if d.length ≤ 1 then
      .error "The single discount quote provided should be associated with a date greater than as of date."
    else .ok d

/-! ## Fitted-bond builder: preprocessing -/

/-- One bond quote of the fitted-bond basket, with the attributes the
preprocessing loop of `buildFittedBondCurve` reads (source lines
1106-1143).  The settlement date, maturity date, tradability and market
yield are produced by the external bond builder and pricing functions and
enter here as data. -/
structure BondDatum where
  securityID : String
  settlementDate : ℤ
  maturityDate : ℤ
  tradable : Bool
  quote : ℚ
  inflationFactor : ℚ
  marketYield : ℚ
  deriving DecidableEq, Repr

/-- Inclusion test of the preprocessing loop (source line 1122): keep a
bond only if its settlement date is strictly after the as-of date and it
is tradable. -/
def bondIncluded (asof : ℤ) (b : BondDatum) : Bool :=
  decide (asof < b.settlementDate) && b.tradable

/-- The debug log line emitted for a skipped bond (source lines 1138-1140). -/
def skipLogMessage (b : BondDatum) : String :=
  "skipped bond " ++ b.securityID

/-- What the preprocessing loop records: the calibration-info fields
written at source lines 1145-1148 (`securities`,
`securityMaturityDates`, `marketPrices`, `marketYields`) — note there is
no field holding skipped bonds — plus the emitted log lines. -/
structure FittedBondPreprocResult where
  securities : List String
  securityMaturityDates : List ℤ
  marketPrices : List ℚ
  marketYields : List ℚ
  logs : List String
  deriving DecidableEq, Repr

/-- The preprocessing loop of `buildFittedBondCurve` (source lines
1106-1148): tradable bonds settling after the as-of date are collected
with price = quote * inflationFactor; the others only produce a log
line. -/
def fittedBondPreprocess (asof : ℤ) : List BondDatum → FittedBondPreprocResult
  | [] => ⟨[], [], [], [], []⟩
  | b :: rest =>
    let r := fittedBondPreprocess asof rest
    if bondIncluded asof b then
      ⟨b.securityID :: r.securities, b.maturityDate :: r.securityMaturityDates,
        b.quote * b.inflationFactor :: r.marketPrices, b.marketYield :: r.marketYields,
        r.logs⟩
    else
      { r with logs := skipLogMessage b :: r.logs }

/-- The requirement after preprocessing (source line 1152): at least one
bond must remain for the fit. -/
def fittedBondHelpersCheck (r : FittedBondPreprocResult) : Except String Unit :=
  if r.securities.isEmpty then .error "no bonds for fitting bond curve" else .ok ()

/-! ## Fitted-bond builder: multi-start trial schedule -/

/-- The parametric fitting families handled by `buildFittedBondCurve`
(the `ExponentialSplines`, `NelsonSiegel` and `Svensson` interpolation
methods, source lines 1166-1204). -/
inductive FittingMethod
  | ExponentialSplines
  | NelsonSiegel
  | Svensson
  deriving DecidableEq, Repr

/-- Modelled from the spec: the parameter count (`method->size()`) of each
family — 4 for Nelson-Siegel (the source allocates a 4-vector for its
guess), 6 for Svensson, 9 for exponential splines. -/
def FittingMethod.size : FittingMethod → ℕ
  | .ExponentialSplines => 9
  | .NelsonSiegel => 4
  | .Svensson => 6

/-- Fuel-indexed radical inverse: the base-b digits of n, mirrored into
[0, 1).  Fuel n suffices because n strictly shrinks under division by
b ≥ 2. -/
def radInvAux : ℕ → ℕ → ℕ → ℚ
  | 0, _, _ => 0
  | fuel + 1, b, n =>
    if n = 0 then 0 else ((n % b : ℕ) + radInvAux fuel b (n / b)) / b

/-- Radical inverse of n in base b. -/
def radInv (b n : ℕ) : ℚ := radInvAux n b n

/-- The Halton seed hard-coded by the source (`HaltonRsg halton(size, 42)`,
line 1208). -/
def haltonSeed : ℕ := 42

/-- Modelled from the spec: the deterministic Halton low-discrepancy
sequence of the external `HaltonRsg` (dimension = parameter count, fixed
seed): component k of draw i is the radical inverse of (seed + i) in the
k-th prime base. -/
def haltonDraw (dim seed i : ℕ) : List ℚ :=
  (List.range dim).map (fun k => radInv ([2, 3, 5, 7, 11, 13, 17, 19, 23].getD k 2) (seed + i))

/-- Index of the first maximal element of a list (`std::max_element`
semantics, as used on the security maturity dates at source lines
1226-1228). -/
def idxOfMax : List ℤ → ℕ
  | [] => 0
  | [_] => 0
  | a :: b :: rest =>
    if a < (b :: rest).getD (idxOfMax (b :: rest)) 0 then idxOfMax (b :: rest) + 1 else 0

/-- Index of the first minimal element of a list (`std::min_element`
semantics, source lines 1229-1231). -/
def idxOfMin : List ℤ → ℕ
  | [] => 0
  | [_] => 0
  | a :: b :: rest =>
    if (b :: rest).getD (idxOfMin (b :: rest)) 0 < a then idxOfMin (b :: rest) + 1 else 0

/-- The data-driven Nelson-Siegel first guess (source lines 1223-1236):
long-term yield = market yield of the longest-maturity bond, short-term
component = yield of the shortest-maturity bond minus the long-term
yield, medium-term component 0, decay factor 5. -/
def nsSmartGuess (marketYields : List ℚ) (maturities : List ℤ) : List ℚ :=
  [marketYields.getD (idxOfMax maturities) 0,
   marketYields.getD (idxOfMin maturities) 0 - marketYields.getD (idxOfMax maturities) 0,
   0, 5]

/-- The Nelson-Siegel mapping of a Halton draw into each parameter's
plausible range (source lines 1242-1245): the three level components into
[-0.05, 0.05), the decay factor into [0, 5). -/
def nsHaltonMap (u : List ℚ) : List ℚ :=
  [u.getD 0 0 * (1/10) - 1/20, u.getD 1 0 * (1/10) - 1/20,
   u.getD 2 0 * (1/10) - 1/20, u.getD 3 0 * 5]

/-- Number of calibration trials (source lines 1210-1217): `maxAttempts`
for Nelson-Siegel, a single trial for every other family (randomised
optimisation seeds are only implemented for Nelson-Siegel; a warning is
logged if more were requested). -/
def trialsCount (m : FittingMethod) (maxAttempts : ℕ) : ℕ :=
  if m = .NelsonSiegel then maxAttempts else 1

/-- The initial guess of trial i (source lines 1218-1250).  Trial 0 uses
the smart guess for Nelson-Siegel and the default guess — a zero vector —
for the other families; later trials use the mapped Halton draw (the
source only reaches the i ≥ 1 branch for Nelson-Siegel). -/
def trialGuess (m : FittingMethod) (yields : List ℚ) (mats : List ℤ) (i : ℕ) : List ℚ :=
  if i = 0 then
    if m = .NelsonSiegel then nsSmartGuess yields mats
    else List.replicate m.size 0
  else nsHaltonMap (haltonDraw m.size haltonSeed i)

/-- The full trial-guess schedule of a fitted-bond build. -/
def trialGuesses (m : FittingMethod) (maxAttempts : ℕ) (yields : List ℚ)
    (mats : List ℤ) : List (List ℚ) :=
  (List.range (trialsCount m maxAttempts)).map (trialGuess m yields mats)

/-- Retain the strictly cheaper of the best trial so far (none = the
initial infinite `minError`) and the current trial (source lines
1253-1257). -/
def betterOf (best : Option (List ℚ × ℚ)) (g : List ℚ) (c : ℚ) : Option (List ℚ × ℚ) :=
  match best with
  | none => some (g, c)
  | some (gb, cb) => if c < cb then some (g, c) else some (gb, cb)

/-- The retention loop (source lines 1218-1265): each trial's cost is
compared with the best so far; the strictly cheaper trial is retained;
once a trial's cost falls below `accuracy`, no more trials are
attempted. -/
def runTrialsAux (cost : List ℚ → ℚ) (accuracy : ℚ) :
    Option (List ℚ × ℚ) → List (List ℚ) → Option (List ℚ × ℚ)
  | best, [] => best
  | best, g :: rest =>
    if cost g < accuracy then betterOf best g (cost g)
    else runTrialsAux cost accuracy (betterOf best g (cost g)) rest

/-- Run all scheduled trials, starting from no best solution. -/
def runTrials (cost : List ℚ → ℚ) (accuracy : ℚ) (gs : List (List ℚ)) :
    Option (List ℚ × ℚ) :=
  runTrialsAux cost accuracy none gs

/-! ## Ambient environment (determinism) -/

/-- Ambient process state a build could in principle observe (an entropy
source, a wall clock).  The source builders never consult any such state:
their only quasi-random ingredient is the Halton sequence with the fixed
seed 42. -/
structure BuildEnv where
  entropy : ℕ
  wallClock : ℤ

/-- The fitted-bond multi-start outcome (best trial and its cost), run in
an ambient environment.  The schedule and retention depend only on the
market inputs. -/
def fittedBondBestTrial (_env : BuildEnv) (m : FittingMethod) (maxAttempts : ℕ)
    (yields : List ℚ) (mats : List ℤ) (cost : List ℚ → ℚ) (accuracy : ℚ) :
    Option (List ℚ × ℚ) :=
  runTrials cost accuracy (trialGuesses m maxAttempts yields mats)

/-- The direct zero-curve pillar data, run in an ambient environment. -/
def directZeroPillars (_env : BuildEnv) (asof : ℤ) (data : List (ℤ × ℚ)) :
    Except String (List (ℤ × ℚ)) :=
  buildZeroCurveData asof data

/-! ## Theorems -/

/-- **C7**: a weighted-average curve computes
discount(t) = exp(w1 ln D1(t) + w2 ln D2(t)), so with weights w1 = 1 and
w2 = 0 it reproduces reference curve 1 exactly: for every time t its
discount factor equals curve 1's discount factor (whose positivity makes
exp ∘ ln the identity). -/
theorem weightedAverage_w1_one_w2_zero_reproduces_curve1
    (d1 d2 : ℝ → ℝ) (t : ℝ) (h : 0 < d1 t) :
    weightedAverageDiscount 1 0 d1 d2 t = d1 t := by
  unfold weightedAverageDiscount
  rw [one_mul, zero_mul, add_zero, Real.exp_log h]

/-- Witness for C7: the weighted average of two flat unit curves with
weights (1, 0) evaluates, at time 0, to curve 1's discount factor 1. -/
theorem weightedAverage_w1_one_w2_zero_reproduces_curve1_witness :
    0 < (1:ℝ) ∧ weightedAverageDiscount 1 0 (fun _ => (1:ℝ)) (fun _ => (1:ℝ)) 0 = 1 :=
  ⟨one_pos, weightedAverage_w1_one_w2_zero_reproduces_curve1 (fun _ => 1) (fun _ => 1) 0 one_pos⟩

/-- Counterexample to **C8** as stated: with `preserveQuoteLinkage` set
and `buildCalibrationInfo` off, nothing inside the try/catch evaluates
the lazily bootstrapped curve, so a deferred numeric bootstrap failure
is first raised by the forced bootstrap after the catch blocks (source
line 310) and escapes with only its original message — naming neither
the curve id nor the as-of date. -/
theorem ctor_lazy_escape_counterexample :
    yieldCurveCtor "Curve1" "2025-01-31" true false
        (.ok ⟨some "convergence not reached"⟩) = .error "convergence not reached"
    ∧ ¬ "Curve1".data <:+: "convergence not reached".data
    ∧ ¬ "2025-01-31".data <:+: "convergence not reached".data :=
  ⟨rfl, by decide, by decide⟩

/-- **C8 amended**: a numeric failure raised inside the constructor's
try region — an eager builder failure of any kind, or a deferred
bootstrap failure forced there because the decoupling rebuild or the
calibration-info population evaluates the curve — is caught and
re-signalled as a fatal failure whose message names the curve id and the
as-of date and keeps the original message; but when
`preserveQuoteLinkage` is set and no calibration info is built, a
deferred bootstrap failure first surfaces at the forced evaluation
outside the catch blocks and escapes carrying only its original
message. -/
theorem ctor_error_resignalling (curveId dateStr msg : String) :
    (∀ (e : BuildException) (p bi : Bool),
      yieldCurveCtor curveId dateStr p bi (.error e) =
        .error (rethrowMessage curveId dateStr e))
    ∧ yieldCurveCtor curveId dateStr false false (.ok ⟨some msg⟩) =
        .error (rethrowMessage curveId dateStr (.qlError msg))
    ∧ yieldCurveCtor curveId dateStr false true (.ok ⟨some msg⟩) =
        .error (rethrowMessage curveId dateStr (.qlError msg))
    ∧ yieldCurveCtor curveId dateStr true true (.ok ⟨some msg⟩) =
        .error (rethrowMessage curveId dateStr (.qlError msg))
    ∧ yieldCurveCtor curveId dateStr true false (.ok ⟨some msg⟩) = .error msg
    ∧ (∀ p bi : Bool, yieldCurveCtor curveId dateStr p bi (.ok ⟨none⟩) = .ok ())
    ∧ (∃ u v w, rethrowMessage curveId dateStr (.qlError msg) =
        u ++ (curveId ++ (v ++ (dateStr ++ (w ++ msg))))) := by
  refine ⟨fun e p bi => rfl, rfl, rfl, rfl, rfl, ?_, ?_⟩
  · intro p bi
    cases p <;> cases bi <;> rfl
  · refine ⟨"yield curve building failed for curve ", " on date ", ": ", ?_⟩
    simp only [rethrowMessage, String.append_assoc]

/-- **C4**: the fitted-bond builder accepts its result if and only if the
final (lowest) cost is below the tolerance — `globalAccuracy` when
provided, else `accuracy` — or `dontThrow` is set; with `dontThrow` the
best-effort result is accepted and the achieved cost is recorded in the
calibration info; otherwise a tolerance breach is a fatal failure. -/
theorem fittedBond_acceptance (dontThrow buildInfo : Bool) (minError accuracy ga : ℚ)
    (globalAccuracy : Option ℚ) :
    ((∃ r, fittedFinalize dontThrow buildInfo minError globalAccuracy accuracy = .ok r) ↔
      (minError < fittedTolerance globalAccuracy accuracy ∨ dontThrow = true))
    ∧ fittedFinalize true true minError globalAccuracy accuracy = .ok (some minError)
    ∧ (dontThrow = false → ¬ minError < fittedTolerance globalAccuracy accuracy →
        fittedFinalize dontThrow buildInfo minError globalAccuracy accuracy =
          .error "Fitted Bond Curve cost value exceeds tolerance")
    ∧ fittedTolerance (some ga) accuracy = ga
    ∧ fittedTolerance none accuracy = accuracy := by
  refine ⟨?_, ?_, ?_, rfl, rfl⟩
  · cases dontThrow <;> by_cases h : minError < fittedTolerance globalAccuracy accuracy <;>
      simp [fittedFinalize, h]
  · simp [fittedFinalize]
  · rintro rfl h
    simp [fittedFinalize, h]

/-- In a sorted node list the head's time bounds every node's time. -/
lemma nodesSorted_head_le (b : Node) (l : List Node) (hs : NodesSorted (b :: l)) :
    ∀ p ∈ b :: l, b.1 ≤ p.1 := by
  induction l generalizing b with
  | nil =>
    intro p hp
    rw [List.mem_singleton] at hp
    subst hp
    exact le_rfl
  | cons c l ih =>
    intro p hp
    rcases List.mem_cons.mp hp with rfl | hp2
    · exact le_rfl
    · have hbc : b.1 < c.1 := (List.chain'_cons.mp hs).1
      exact le_trans hbc.le (ih c (List.chain'_cons.mp hs).2 p hp2)

/-- Linear interpolation reproduces its node values: the `Linear` method
satisfies `InterpReproduces`. -/
lemma linearInterp_reproduces : InterpReproduces linearInterp := by
  intro ns
  induction ns with
  | nil => intro _ p hp; cases hp
  | cons a l ih =>
    intro hs p hp
    cases l with
    | nil =>
      rw [List.mem_singleton] at hp
      subst hp
      rw [linearInterp]
    | cons b l2 =>
      rcases List.mem_cons.mp hp with rfl | hp2
      · have hab : p.1 < b.1 := (List.chain'_cons.mp hs).1
        rw [linearInterp, if_pos hab, sub_self, zero_mul, zero_div, add_zero]
      · have hs2 : NodesSorted (b :: l2) := (List.chain'_cons.mp hs).2
        have hble : b.1 ≤ p.1 := nodesSorted_head_le b l2 hs2 p hp2
        rw [linearInterp, if_neg (not_lt.mpr hble)]
        exact ih hs2 p hp2

/-- Zipping preserves a sorted time column. -/
lemma zip_chain_fst : ∀ (ts vs : List ℝ), ts.Chain' (· < ·) →
    (ts.zip vs).Chain' (fun p q : Node => p.1 < q.1) := by
  intro ts
  induction ts with
  | nil => intro vs _; simp
  | cons a ts ih =>
    intro vs h
    cases vs with
    | nil => simp
    | cons b vs =>
      rw [List.zip_cons_cons]
      refine List.chain'_cons'.mpr ⟨?_, ih vs h.tail⟩
      intro y hy
      cases ts with
      | nil => simp at hy
      | cons a' ts' =>
        cases vs with
        | nil => simp at hy
        | cons b' vs' =>
          rw [List.zip_cons_cons] at hy
          have hy' : y = (a', b') := by simpa using hy.symm
          subst hy'
          exact (List.chain'_cons.mp h).1
/-- The live bootstrapped node list is sorted when the pillar times are
positive and increasing. -/
lemma liveNodes_sorted (var : InterpolationVariable) (ts vs : List ℝ)
    (hpos : ∀ t ∈ ts, 0 < t) (hs : ts.Chain' (· < ·)) :
    NodesSorted (liveNodes var ts vs) := by
  have hzip := zip_chain_fst ts vs hs
  have hhead : ∀ y ∈ (ts.zip vs).head?, (0:ℝ) < y.1 := by
    intro y hy
    have hymem : y ∈ ts.zip vs := List.mem_of_mem_head? hy
    obtain ⟨y1, y2⟩ := y
    exact hpos y1 (List.of_mem_zip hymem).1
  cases var <;> exact List.chain'_cons'.mpr ⟨hhead, hzip⟩

/-- The snapshot node list is sorted when the pillar times are positive
and increasing. -/
lemma snapshotNodes_sorted (var : InterpolationVariable) (live : ℝ → ℝ) (ts : List ℝ)
    (hpos : ∀ t ∈ ts, 0 < t) (hs : ts.Chain' (· < ·)) :
    NodesSorted (snapshotNodes var live ts) := by
  have hchain : ((0:ℝ) :: ts).Chain' (· < ·) :=
    List.chain'_cons'.mpr ⟨fun y hy => hpos y (List.mem_of_mem_head? hy), hs⟩
  exact zip_chain_fst _ _ hchain

/-- An interpolant evaluated along times paired with values inside a
containing sorted node list returns exactly those values. -/
lemma map_interp_eq (I : InterpScheme) (L : List Node) (hrepro : InterpReproduces I)
    (hL : NodesSorted L) :
    ∀ (ts vs : List ℝ), ts.length = vs.length → (∀ p ∈ ts.zip vs, p ∈ L) →
      ts.map (I L) = vs := by
  intro ts
  induction ts with
  | nil =>
    intro vs hlen _
    simp only [List.map_nil]
    exact (List.length_eq_zero.mp hlen.symm).symm
  | cons a ts ih =>
    intro vs hlen hsub
    cases vs with
    | nil => simp at hlen
    | cons b vs =>
      rw [List.map_cons]
      have hab : I L a = b := by
        have hm : (a, b) ∈ L := hsub (a, b) (by
          rw [List.zip_cons_cons]
          exact List.mem_cons_self _ _)
        exact hrepro L hL (a, b) hm
      rw [hab, ih vs (by simpa using hlen) (fun p hp => hsub p (by
        rw [List.zip_cons_cons]
        exact List.mem_cons_of_mem _ hp))]

/-- Re-sampling the live bootstrapped curve at its own pillars and
prepending the time-0 value reproduces the live node list exactly. -/
lemma snapshotNodes_eq_liveNodes (I : InterpScheme) (hrepro : InterpReproduces I)
    (var : InterpolationVariable) (ts vs : List ℝ) (hlen : ts.length = vs.length)
    (hpos : ∀ t ∈ ts, 0 < t) (hs : ts.Chain' (· < ·)) :
    snapshotNodes var (I (liveNodes var ts vs)) ts = liveNodes var ts vs := by
  have hsorted := liveNodes_sorted var ts vs hpos hs
  have hmap : ts.map (I (liveNodes var ts vs)) = vs :=
    map_interp_eq I (liveNodes var ts vs) hrepro hsorted ts vs hlen
      (fun p hp => by cases var <;> exact List.mem_cons_of_mem _ hp)
  cases var with
  | Zero =>
    show ((0:ℝ) :: ts).zip
        ((ts.map (I (liveNodes .Zero ts vs))).headD 0 :: ts.map (I (liveNodes .Zero ts vs))) =
      liveNodes .Zero ts vs
    rw [hmap]
    show ((0:ℝ) :: ts).zip (vs.headD 0 :: vs) = (0, vs.headD 0) :: ts.zip vs
    rw [List.zip_cons_cons]
  | Discount =>
    show ((0:ℝ) :: ts).zip (1 :: ts.map (I (liveNodes .Discount ts vs))) =
      liveNodes .Discount ts vs
    rw [hmap]
    show ((0:ℝ) :: ts).zip (1 :: vs) = (0, 1) :: ts.zip vs
    rw [List.zip_cons_cons]
  | Forward =>
    show ((0:ℝ) :: ts).zip
        ((ts.map (I (liveNodes .Forward ts vs))).headD 0 :: ts.map (I (liveNodes .Forward ts vs))) =
      liveNodes .Forward ts vs
    rw [hmap]
    show ((0:ℝ) :: ts).zip (vs.headD 0 :: vs) = (0, vs.headD 0) :: ts.zip vs
    rw [List.zip_cons_cons]

/-- The discount factor of an interpolated curve at time 0 is exactly 1:
immediate for the Zero and Forward variables (empty accrual period, empty
integration range), and via the time-0 node value 1 for the Discount
variable. -/
lemma discountOf_interp_at_zero (I : InterpScheme) (var : InterpolationVariable)
    (ns : List Node) (hrepro : InterpReproduces I) (hsorted : NodesSorted ns)
    (hmem : var = .Discount → ((0:ℝ), (1:ℝ)) ∈ ns) :
    discountOf var (I ns) 0 = 1 := by
  cases var with
  | Zero => simp [discountOf]
  | Forward => simp [discountOf, intervalIntegral.integral_same]
  | Discount => exact hrepro ns hsorted (0, 1) (hmem rfl)

/-- A product of list elements each lying in [0, 1] lies in [0, 1]. -/
lemma list_prod_unit_interval {l : List ℝ} (h : ∀ x ∈ l, 0 ≤ x ∧ x ≤ 1) :
    0 ≤ l.prod ∧ l.prod ≤ 1 := by
  induction l with
  | nil => simp
  | cons a t ih =>
    obtain ⟨ha0, ha1⟩ := h a (List.mem_cons_self a t)
    obtain ⟨ht0, ht1⟩ := ih (fun x hx => h x (List.mem_cons_of_mem _ hx))
    rw [List.prod_cons]
    exact ⟨mul_nonneg ha0 ht0, by
      calc a * t.prod ≤ 1 * 1 := mul_le_mul ha1 ht1 ht0 zero_le_one
      _ = 1 := one_mul 1⟩

/-- Counterexample to **C6** as stated: the claim's hypotheses (every
recovery < 1, every survival ≤ 1) do not constrain the blend weights, and
with weight -1, survival 1/2 and recovery 1/2 over a flat unit base curve
the blended discount is (3/4)^(-1) = 4/3 > 1, strictly above the base
discount. -/
theorem yieldPlusDefault_le_base_counterexample :
    ((1:ℝ)/2 < 1) ∧ ((1:ℝ)/2 ≤ 1) ∧
    yieldPlusDefaultDiscount (fun _ => 1) [⟨fun _ => 1/2, 1/2, -1⟩] 0 > 1 := by
  refine ⟨by norm_num, by norm_num, ?_⟩
  have h : yieldPlusDefaultDiscount (fun _ => 1) [⟨fun _ => 1/2, 1/2, -1⟩] 0 =
      ((3/4 : ℝ) ^ (-1 : ℝ)) := by
    simp only [yieldPlusDefaultDiscount, defaultFactor, List.map_cons, List.map_nil,
      List.prod_cons, List.prod_nil, mul_one, one_mul]
    norm_num
  rw [h, Real.rpow_neg_one]
  norm_num

/-- **C6 amended**: the yield-plus-default blend computes
discount(t) = baseDiscount(t) * prod_k [surv_k(t) + (1-surv_k(t)) *
recovery_k] ^ weight_k, and discount(t) ≤ baseDiscount(t) holds at every
t where, beyond the claim's hypotheses (recovery_k < 1, surv_k(t) ≤ 1),
the inputs lie in their natural domains: weights and recoveries
nonnegative, survival probabilities nonnegative, base discount
nonnegative. -/
theorem yieldPlusDefault_discount_le_base (base : ℝ → ℝ) (cs : List DefaultComponent)
    (t : ℝ) (hbase : 0 ≤ base t)
    (h : ∀ c ∈ cs, 0 ≤ c.weight ∧ 0 ≤ c.survival t ∧ c.survival t ≤ 1 ∧
      0 ≤ c.recovery ∧ c.recovery < 1) :
    yieldPlusDefaultDiscount base cs t ≤ base t := by
  have hfac : ∀ x ∈ cs.map (fun c => defaultFactor c t), 0 ≤ x ∧ x ≤ 1 := by
    intro x hx
    obtain ⟨c, hc, rfl⟩ := List.mem_map.mp hx
    obtain ⟨hw, hs0, hs1, hr0, hr1⟩ := h c hc
    have hb0 : 0 ≤ c.survival t + (1 - c.survival t) * c.recovery :=
      add_nonneg hs0 (mul_nonneg (by linarith) hr0)
    have hb1 : c.survival t + (1 - c.survival t) * c.recovery ≤ 1 := by
      have : (1 - c.survival t) * c.recovery ≤ (1 - c.survival t) * 1 :=
        mul_le_mul_of_nonneg_left hr1.le (by linarith)
      linarith
    exact ⟨Real.rpow_nonneg hb0 _, Real.rpow_le_one hb0 hb1 hw⟩
  obtain ⟨hp0, hp1⟩ := list_prod_unit_interval hfac
  calc yieldPlusDefaultDiscount base cs t
      = base t * (cs.map (fun c => defaultFactor c t)).prod := rfl
    _ ≤ base t * 1 := mul_le_mul_of_nonneg_left hp1 hbase
    _ = base t := mul_one _

/-- Witness for C6's amended theorem: one component with full survival,
zero recovery and weight 1 over a flat unit base keeps the blended
discount below the base. -/
theorem yieldPlusDefault_discount_le_base_witness :
    yieldPlusDefaultDiscount (fun _ => 1) [⟨fun _ => 1, 0, 1⟩] 0 ≤ (fun _ => (1:ℝ)) 0 :=
  yieldPlusDefault_discount_le_base (fun _ => 1) [⟨fun _ => 1, 0, 1⟩] 0 zero_le_one
    (by simp)

/-- **C10**: for direct zero and discount curves, if every quote lies
strictly after the as-of date the builder inserts a synthetic pillar at
the as-of date — carrying the earliest quote's zero rate for a zero curve
and discount factor 1.0 for a discount curve — so the built data always
starts at the as-of date; and if the sole quote lies at or before the
as-of date (so only one point remains after the insertion step), the
build fails. -/
theorem directCurve_time_zero_pillar (asof d0 : ℤ) (r0 : ℚ) (rest : List (ℤ × ℚ))
    (hall : ∀ q ∈ (d0, r0) :: rest, asof < q.1) :
    buildZeroCurveData asof ((d0, r0) :: rest) = .ok ((asof, r0) :: (d0, r0) :: rest)
    ∧ buildDiscountCurveData asof ((d0, r0) :: rest) = .ok ((asof, 1) :: (d0, r0) :: rest)
    ∧ (∀ d : ℤ, ∀ r : ℚ, d ≤ asof →
        (∃ e, buildZeroCurveData asof [(d, r)] = .error e)
        ∧ (∃ e, buildDiscountCurveData asof [(d, r)] = .error e)) := by
  have hd0 : asof < d0 := hall (d0, r0) (List.mem_cons_self _ _)
  refine ⟨?_, ?_, ?_⟩
  · simp [buildZeroCurveData, insertTimeZeroZero, hd0]
  · simp [buildDiscountCurveData, insertTimeZeroDiscount, hd0]
  · intro d r hd
    have hnot : ¬ asof < d := not_lt.mpr hd
    exact ⟨⟨"The single zero rate quote provided should be associated with a date greater than as of date.",
        by simp [buildZeroCurveData, insertTimeZeroZero, hnot]⟩,
      ⟨"The single discount quote provided should be associated with a date greater than as of date.",
        by simp [buildDiscountCurveData, insertTimeZeroDiscount, hnot]⟩⟩

/-- Witness for C10: a single zero quote of 2% five days after the as-of
date gets a synthetic as-of pillar with the same rate (and value 1.0 for
the discount builder), while a quote on the as-of date itself fails. -/
theorem directCurve_time_zero_pillar_witness :
    buildZeroCurveData 0 [(5, 1/50)] = .ok [(0, 1/50), (5, 1/50)]
    ∧ buildDiscountCurveData 0 [(5, 1/50)] = .ok [(0, 1), (5, 1/50)]
    ∧ ∃ e, buildZeroCurveData 0 [(0, 1/50)] = .error e :=
  ⟨(directCurve_time_zero_pillar 0 5 (1/50) [] (by decide)).1,
    (directCurve_time_zero_pillar 0 5 (1/50) [] (by decide)).2.1,
    ((directCurve_time_zero_pillar 0 5 (1/50) [] (by decide)).2.2 0 (1/50) le_rfl).1⟩

/-- The preprocessing loop in closed form: the calibration-info fields are
exactly the maps over the kept bonds, the logs the skip messages of the
excluded ones. -/
lemma fittedBondPreprocess_eq (asof : ℤ) (bonds : List BondDatum) :
    fittedBondPreprocess asof bonds =
      ⟨(bonds.filter (bondIncluded asof)).map (fun b => b.securityID),
       (bonds.filter (bondIncluded asof)).map (fun b => b.maturityDate),
       (bonds.filter (bondIncluded asof)).map (fun b => b.quote * b.inflationFactor),
       (bonds.filter (bondIncluded asof)).map (fun b => b.marketYield),
       (bonds.filter (fun b => !(bondIncluded asof b))).map skipLogMessage⟩ := by
  induction bonds with
  | nil => rfl
  | cons b rest ih =>
    by_cases hb : bondIncluded asof b
    · simp [fittedBondPreprocess, ih, hb, List.filter_cons]
    · have hb' : bondIncluded asof b = false := by simpa using hb
      simp [fittedBondPreprocess, ih, hb', List.filter_cons]

/-- Counterexample to **C9** as stated: with as-of date 0, a bond "B1"
settling on the as-of date is skipped, the build proceeds with the
remaining bond "B2" and the skip is logged — but no trace of "B1" is
recorded on the calibration-info result (its only identifier-bearing
field, `securities`, holds just "B2"): the skipped-bond condition is
logged, not recorded as a diagnostic on the result. -/
theorem fittedBond_skip_not_recorded_counterexample :
    (fittedBondPreprocess 0
        [⟨"B1", 0, 100, true, 1, 1, 0⟩, ⟨"B2", 5, 200, true, 1, 1, 0⟩]).securities = ["B2"]
    ∧ "B1" ∉ (fittedBondPreprocess 0
        [⟨"B1", 0, 100, true, 1, 1, 0⟩, ⟨"B2", 5, 200, true, 1, 1, 0⟩]).securities
    ∧ (fittedBondPreprocess 0
        [⟨"B1", 0, 100, true, 1, 1, 0⟩, ⟨"B2", 5, 200, true, 1, 1, 0⟩]).logs =
        [skipLogMessage ⟨"B1", 0, 100, true, 1, 1, 0⟩]
    ∧ fittedBondHelpersCheck (fittedBondPreprocess 0
        [⟨"B1", 0, 100, true, 1, 1, 0⟩, ⟨"B2", 5, 200, true, 1, 1, 0⟩]) = .ok () := by
  refine ⟨by decide, by decide, by decide, rfl⟩

/-- **C9 amended**: the fitted-bond builder excludes exactly the bonds
whose settlement date is on or before the as-of date or which are
untradeable; each exclusion produces a log line and is non-fatal (the fit
proceeds whenever at least one bond remains); the calibration-info result
lists only the retained bonds (prices rescaled by the inflation factor) —
skipped bonds are omitted from it rather than recorded as an explicit
diagnostic, and no exception is thrown for them. -/
theorem fittedBond_preprocess_excludes (asof : ℤ) (bonds : List BondDatum) :
    (fittedBondPreprocess asof bonds).securities =
      (bonds.filter (bondIncluded asof)).map (fun b => b.securityID)
    ∧ (fittedBondPreprocess asof bonds).securityMaturityDates =
      (bonds.filter (bondIncluded asof)).map (fun b => b.maturityDate)
    ∧ (fittedBondPreprocess asof bonds).marketPrices =
      (bonds.filter (bondIncluded asof)).map (fun b => b.quote * b.inflationFactor)
    ∧ (fittedBondPreprocess asof bonds).marketYields =
      (bonds.filter (bondIncluded asof)).map (fun b => b.marketYield)
    ∧ (fittedBondPreprocess asof bonds).logs =
      (bonds.filter (fun b => !(bondIncluded asof b))).map skipLogMessage
    ∧ ((∃ b ∈ bonds, bondIncluded asof b) →
        fittedBondHelpersCheck (fittedBondPreprocess asof bonds) = .ok ()) := by
  have h := fittedBondPreprocess_eq asof bonds
  refine ⟨by rw [h], by rw [h], by rw [h], by rw [h], by rw [h], ?_⟩
  rintro ⟨b, hbmem, hbinc⟩
  have hmem : b.securityID ∈ (fittedBondPreprocess asof bonds).securities := by
    rw [h]
    exact List.mem_map_of_mem _ (List.mem_filter.mpr ⟨hbmem, hbinc⟩)
  have hne : (fittedBondPreprocess asof bonds).securities ≠ [] :=
    List.ne_nil_of_mem hmem
  simp [fittedBondHelpersCheck, List.isEmpty_iff, hne]

/-- Witness for C9's amended theorem at the counterexample's input: the
non-fatality implication is discharged by the tradable bond "B2". -/
theorem fittedBond_preprocess_excludes_witness :
    (fittedBondPreprocess 0
        [⟨"B1", 0, 100, true, 1, 1, 0⟩, ⟨"B2", 5, 200, true, 1, 1, 0⟩]).securities =
      (([⟨"B1", 0, 100, true, 1, 1, 0⟩, ⟨"B2", 5, 200, true, 1, 1, 0⟩] :
          List BondDatum).filter (bondIncluded 0)).map (fun b => b.securityID)
    ∧ fittedBondHelpersCheck (fittedBondPreprocess 0
        [⟨"B1", 0, 100, true, 1, 1, 0⟩, ⟨"B2", 5, 200, true, 1, 1, 0⟩]) = .ok () :=
  ⟨(fittedBond_preprocess_excludes 0 _).1,
    (fittedBond_preprocess_excludes 0 _).2.2.2.2.2
      ⟨⟨"B2", 5, 200, true, 1, 1, 0⟩, by decide, by decide⟩⟩

/-- `idxOfMax` indexes a maximal element. -/
lemma idxOfMax_spec : ∀ l : List ℤ, l ≠ [] →
    idxOfMax l < l.length ∧ ∀ j, j < l.length → l.getD j 0 ≤ l.getD (idxOfMax l) 0 := by
  intro l
  induction l with
  | nil => intro h; exact absurd rfl h
  | cons a t ih =>
    intro _
    cases t with
    | nil =>
      refine ⟨by simp [idxOfMax], ?_⟩
      intro j hj
      have hj1 : j < 1 := by simpa using hj
      have : j = 0 := by omega
      subst this
      simp [idxOfMax]
    | cons b rest =>
      obtain ⟨hlt, hmax⟩ := ih (by simp)
      by_cases hc : a < (b :: rest).getD (idxOfMax (b :: rest)) 0
      · have hidx : idxOfMax (a :: b :: rest) = idxOfMax (b :: rest) + 1 := by
          rw [idxOfMax, if_pos hc]
        refine ⟨by rw [hidx]; simpa using Nat.succ_lt_succ hlt, ?_⟩
        intro j hj
        rw [hidx, List.getD_cons_succ]
        cases j with
        | zero => simpa using hc.le
        | succ j' =>
          rw [List.getD_cons_succ]
          exact hmax j' (by simpa using hj)
      · have hidx : idxOfMax (a :: b :: rest) = 0 := by rw [idxOfMax, if_neg hc]
        have hle : (b :: rest).getD (idxOfMax (b :: rest)) 0 ≤ a := not_lt.mp hc
        refine ⟨by rw [hidx]; simp, ?_⟩
        intro j hj
        rw [hidx, List.getD_cons_zero]
        cases j with
        | zero => simp
        | succ j' =>
          rw [List.getD_cons_succ]
          exact le_trans (hmax j' (by simpa using hj)) hle

/-- `idxOfMin` indexes a minimal element. -/
lemma idxOfMin_spec : ∀ l : List ℤ, l ≠ [] →
    idxOfMin l < l.length ∧ ∀ j, j < l.length → l.getD (idxOfMin l) 0 ≤ l.getD j 0 := by
  intro l
  induction l with
  | nil => intro h; exact absurd rfl h
  | cons a t ih =>
    intro _
    cases t with
    | nil =>
      refine ⟨by simp [idxOfMin], ?_⟩
      intro j hj
      have hj1 : j < 1 := by simpa using hj
      have : j = 0 := by omega
      subst this
      simp [idxOfMin]
    | cons b rest =>
      obtain ⟨hlt, hmin⟩ := ih (by simp)
      by_cases hc : (b :: rest).getD (idxOfMin (b :: rest)) 0 < a
      · have hidx : idxOfMin (a :: b :: rest) = idxOfMin (b :: rest) + 1 := by
          rw [idxOfMin, if_pos hc]
        refine ⟨by rw [hidx]; simpa using Nat.succ_lt_succ hlt, ?_⟩
        intro j hj
        rw [hidx, List.getD_cons_succ]
        cases j with
        | zero => simpa using hc.le
        | succ j' =>
          rw [List.getD_cons_succ]
          exact hmin j' (by simpa using hj)
      · have hidx : idxOfMin (a :: b :: rest) = 0 := by rw [idxOfMin, if_neg hc]
        have hle : a ≤ (b :: rest).getD (idxOfMin (b :: rest)) 0 := not_lt.mp hc
        refine ⟨by rw [hidx]; simp, ?_⟩
        intro j hj
        rw [hidx, List.getD_cons_zero]
        cases j with
        | zero => simp
        | succ j' =>
          rw [List.getD_cons_succ]
          exact le_trans hle (hmin j' (by simpa using hj))

/-- The radical inverse lies in [0, 1) for bases at least 2. -/
lemma radInvAux_bounds (b : ℕ) (hb : 2 ≤ b) :
    ∀ fuel n : ℕ, 0 ≤ radInvAux fuel b n ∧ radInvAux fuel b n < 1 := by
  intro fuel
  induction fuel with
  | zero => intro n; simp [radInvAux]
  | succ f ih =>
    intro n
    by_cases hn : n = 0
    · simp [radInvAux, hn]
    · obtain ⟨h0, h1⟩ := ih (n / b)
      have hbq : (0:ℚ) < (b:ℚ) := by
        have : 0 < b := by omega
        exact_mod_cast this
      have hmodq : ((n % b : ℕ) : ℚ) ≤ (b:ℚ) - 1 := by
        have hm : n % b ≤ b - 1 := by
          have := Nat.mod_lt n (show 0 < b by omega)
          omega
        have h1b : (1:ℚ) ≤ (b:ℚ) := by exact_mod_cast (show 1 ≤ b by omega)
        calc ((n % b : ℕ) : ℚ) ≤ ((b - 1 : ℕ) : ℚ) := by exact_mod_cast hm
          _ = (b:ℚ) - 1 := by
            push_cast [Nat.cast_sub (show 1 ≤ b by omega)]
            ring
      constructor
      · simp only [radInvAux, hn, if_neg, ite_false]
        exact div_nonneg (add_nonneg (Nat.cast_nonneg _) h0) hbq.le
      · simp only [radInvAux, hn, if_neg, ite_false]
        rw [div_lt_one hbq]
        linarith

/-- `betterOf` returns a solution at most as costly as the new trial and
as the previous best. -/
lemma betterOf_le (best : Option (List ℚ × ℚ)) (g : List ℚ) (c : ℚ) :
    ∃ g0 c0, betterOf best g c = some (g0, c0) ∧ c0 ≤ c ∧
      ∀ gb cb, best = some (gb, cb) → c0 ≤ cb := by
  cases best with
  | none => exact ⟨g, c, rfl, le_rfl, by simp⟩
  | some p =>
    obtain ⟨gb, cb⟩ := p
    by_cases hc : c < cb
    · refine ⟨g, c, by simp [betterOf, hc], le_rfl, ?_⟩
      rintro gb' cb' h
      injection h with h'
      injection h' with h1 h2
      subst h2
      exact hc.le
    · refine ⟨gb, cb, by simp [betterOf, hc], not_lt.mp hc, ?_⟩
      rintro gb' cb' h
      injection h with h'
      injection h' with h1 h2
      subst h2
      exact le_rfl

/-- Cases of a `betterOf` result: the new trial or the previous best. -/
lemma betterOf_cases (best : Option (List ℚ × ℚ)) (g g0 : List ℚ) (c c0 : ℚ)
    (h : betterOf best g c = some (g0, c0)) :
    (g0 = g ∧ c0 = c) ∨ best = some (g0, c0) := by
  cases best with
  | none =>
    simp only [betterOf] at h
    injection h with h'
    injection h' with h1 h2
    exact Or.inl ⟨h1.symm, h2.symm⟩
  | some p =>
    obtain ⟨gb, cb⟩ := p
    simp only [betterOf] at h
    by_cases hc : c < cb
    · rw [if_pos hc] at h
      injection h with h'
      injection h' with h1 h2
      exact Or.inl ⟨h1.symm, h2.symm⟩
    · rw [if_neg hc] at h
      exact Or.inr h

/-- A result of the retention loop is one of the considered trials with
its own cost, unless it is the inherited previous best. -/
lemma runTrialsAux_sound (cost : List ℚ → ℚ) (acc : ℚ) :
    ∀ (gs : List (List ℚ)) (best : Option (List ℚ × ℚ)) (g : List ℚ) (c : ℚ),
      runTrialsAux cost acc best gs = some (g, c) →
      (g ∈ gs ∧ c = cost g) ∨ best = some (g, c) := by
  intro gs
  induction gs with
  | nil => intro best g c h; exact Or.inr h
  | cons a rest ih =>
    intro best g c h
    by_cases hacc : cost a < acc
    · simp only [runTrialsAux, if_pos hacc] at h
      rcases betterOf_cases best a g (cost a) c h with ⟨rfl, rfl⟩ | hb
      · exact Or.inl ⟨List.mem_cons_self _ _, rfl⟩
      · exact Or.inr hb
    · simp only [runTrialsAux, if_neg hacc] at h
      rcases ih _ g c h with ⟨hm, hc⟩ | hb
      · exact Or.inl ⟨List.mem_cons_of_mem _ hm, hc⟩
      · rcases betterOf_cases best a g (cost a) c hb with ⟨rfl, rfl⟩ | hb2
        · exact Or.inl ⟨List.mem_cons_self _ _, rfl⟩
        · exact Or.inr hb2

/-- When no trial meets the early-stop accuracy, the retention loop
returns a cost below every considered trial and the inherited best. -/
lemma runTrialsAux_min (cost : List ℚ → ℚ) (acc : ℚ) :
    ∀ (gs : List (List ℚ)) (best : Option (List ℚ × ℚ)) (g : List ℚ) (c : ℚ),
      (∀ g' ∈ gs, ¬ cost g' < acc) →
      runTrialsAux cost acc best gs = some (g, c) →
      (∀ g' ∈ gs, c ≤ cost g') ∧ (∀ gb cb, best = some (gb, cb) → c ≤ cb) := by
  intro gs
  induction gs with
  | nil =>
    intro best g c _ h
    refine ⟨by simp, ?_⟩
    rintro gb cb rfl
    simp only [runTrialsAux] at h
    injection h with h'
    injection h' with h1 h2
    subst h2
    exact le_rfl
  | cons a rest ih =>
    intro best g c hnone h
    have hacc : ¬ cost a < acc := hnone a (List.mem_cons_self _ _)
    simp only [runTrialsAux, if_neg hacc] at h
    obtain ⟨hrest, hbest⟩ :=
      ih _ g c (fun g' hg' => hnone g' (List.mem_cons_of_mem _ hg')) h
    obtain ⟨g0, c0, hb0, hc0a, hc0best⟩ := betterOf_le best a (cost a)
    have hcc0 : c ≤ c0 := hbest g0 c0 hb0
    refine ⟨?_, fun gb cb hbeq => le_trans hcc0 (hc0best gb cb hbeq)⟩
    intro g' hg'
    rcases List.mem_cons.mp hg' with rfl | hmem
    · exact le_trans hcc0 hc0a
    · exact hrest g' hmem

/-- Trials scheduled after one that meets the accuracy are never
evaluated. -/
lemma runTrialsAux_early (cost : List ℚ → ℚ) (acc : ℚ) :
    ∀ (pre : List (List ℚ)) (best : Option (List ℚ × ℚ)) (g : List ℚ)
      (post : List (List ℚ)),
      (∀ p ∈ pre, ¬ cost p < acc) → cost g < acc →
      runTrialsAux cost acc best (pre ++ g :: post) =
        runTrialsAux cost acc best (pre ++ [g]) := by
  intro pre
  induction pre with
  | nil =>
    intro best g post _ hg
    simp only [List.nil_append, runTrialsAux, if_pos hg]
  | cons p pre ih =>
    intro best g post hpre hg
    have hp : ¬ cost p < acc := hpre p (List.mem_cons_self _ _)
    simp only [List.cons_append, runTrialsAux, if_neg hp]
    exact ih _ g post (fun q hq => hpre q (List.mem_cons_of_mem _ hq)) hg

/-- Element i of a map over `List.range`. -/
lemma getD_map_range (f : ℕ → List ℚ) (n i : ℕ) (hi : i < n) :
    ((List.range n).map f).getD i [] = f i := by
  rw [List.getD_eq_getElem _ _ (by simpa using hi)]
  simp

/-- Counterexample to **C3** as stated: for the Svensson family (and
likewise exponential splines) with maxAttempts = 3 the builder runs a
single trial — no Halton-seeded trials 1..maxAttempts-1 exist; only
Nelson-Siegel gets the full multi-start schedule. -/
theorem fittedBond_multistart_counterexample :
    (trialGuesses .Svensson 3 [1/100] [10]).length = 1
    ∧ (trialGuesses .ExponentialSplines 3 [1/100] [10]).length = 1
    ∧ (trialGuesses .Svensson 3 [1/100] [10]).length ≠ 3
    ∧ (trialGuesses .NelsonSiegel 3 [1/100] [10]).length = 3 := by
  exact ⟨rfl, rfl, by decide, rfl⟩

/-- **C3 amended**: only Nelson-Siegel is multi-start (`maxAttempts`
trials; exponential splines and Svensson run exactly one trial, whose
guess is the default zero vector).  Nelson-Siegel's trial 0 uses the
data-driven guess built from the yields of the longest- and
shortest-maturity bonds with decay seed 5, and its trials
1..maxAttempts-1 use the deterministic Halton draw (components in [0, 1))
mapped into each parameter's plausible range.  The lowest-cost trial is
retained, and trials scheduled after one whose cost falls below the
accuracy are never evaluated. -/
theorem fittedBond_multistart_schedule (n : ℕ) (y : List ℚ) (mats : List ℤ)
    (cost : List ℚ → ℚ) (acc : ℚ) :
    (trialGuesses .NelsonSiegel n y mats).length = n
    ∧ trialGuesses .Svensson n y mats = [List.replicate 6 0]
    ∧ trialGuesses .ExponentialSplines n y mats = [List.replicate 9 0]
    ∧ (1 ≤ n → (trialGuesses .NelsonSiegel n y mats).getD 0 [] =
        [y.getD (idxOfMax mats) 0,
         y.getD (idxOfMin mats) 0 - y.getD (idxOfMax mats) 0, 0, 5])
    ∧ (mats ≠ [] →
        (idxOfMax mats < mats.length ∧
          ∀ j, j < mats.length → mats.getD j 0 ≤ mats.getD (idxOfMax mats) 0)
        ∧ (idxOfMin mats < mats.length ∧
          ∀ j, j < mats.length → mats.getD (idxOfMin mats) 0 ≤ mats.getD j 0))
    ∧ (∀ i, 1 ≤ i → i < n →
        (trialGuesses .NelsonSiegel n y mats).getD i [] =
          nsHaltonMap (haltonDraw 4 haltonSeed i))
    ∧ (∀ b k, 2 ≤ b → 0 ≤ radInv b k ∧ radInv b k < 1)
    ∧ (∀ gs g c, runTrials cost acc gs = some (g, c) → g ∈ gs ∧ c = cost g)
    ∧ (∀ gs g c, (∀ g' ∈ gs, ¬ cost g' < acc) →
        runTrials cost acc gs = some (g, c) → ∀ g' ∈ gs, c ≤ cost g')
    ∧ (∀ (pre post : List (List ℚ)) g, (∀ p ∈ pre, ¬ cost p < acc) → cost g < acc →
        runTrials cost acc (pre ++ g :: post) = runTrials cost acc (pre ++ [g])) := by
  refine ⟨?_, rfl, rfl, ?_, ?_, ?_, ?_, ?_, ?_, ?_⟩
  · simp [trialGuesses, trialsCount]
  · intro hn
    rw [show trialGuesses .NelsonSiegel n y mats =
        (List.range n).map (trialGuess .NelsonSiegel y mats) by
      simp [trialGuesses, trialsCount]]
    rw [getD_map_range _ n 0 (by omega)]
    rfl
  · intro hne
    exact ⟨idxOfMax_spec mats hne, idxOfMin_spec mats hne⟩
  · intro i h1 hn
    rw [show trialGuesses .NelsonSiegel n y mats =
        (List.range n).map (trialGuess .NelsonSiegel y mats) by
      simp [trialGuesses, trialsCount]]
    rw [getD_map_range _ n i hn]
    simp [trialGuess, show i ≠ 0 by omega, FittingMethod.size]
  · intro b k hb
    exact radInvAux_bounds b hb k k
  · intro gs g c h
    rcases runTrialsAux_sound cost acc gs none g c h with ⟨hm, hc⟩ | hb
    · exact ⟨hm, hc⟩
    · cases hb
  · intro gs g c hnone h
    exact (runTrialsAux_min cost acc gs none g c hnone h).1
  · intro pre post g hpre hg
    exact runTrialsAux_early cost acc pre none g post hpre hg

/-- Witness for C3's amended theorem: with yields (1%, 2%) for maturities
(1, 10), Nelson-Siegel's trial 0 picks the 10-maturity yield 2% as
long-term level and 1% - 2% as short-term component, while Svensson gets
the single zero-vector trial. -/
theorem fittedBond_multistart_schedule_witness :
    (trialGuesses .NelsonSiegel 3 [1, 2] [1, 10]).getD 0 [] =
      [(2:ℚ), 1 - 2, 0, 5]
    ∧ trialGuesses .Svensson 3 [1, 2] [1, 10] = [List.replicate 6 0] := by
  constructor
  · have h := (fittedBond_multistart_schedule 3 [1, 2] [1, 10]
      (fun _ => 0) 1).2.2.2.1 (by omega)
    rw [h]
    simp [idxOfMax, idxOfMin]
  · exact (fittedBond_multistart_schedule 3 [1, 2] [1, 10] (fun _ => 0) 1).2.1

/-- **C5**: curve builds are deterministic — they read nothing from the
ambient process state (entropy, clock); the multi-start fitter's Halton
sequence uses the fixed seed 42, so rebuilding from identical inputs
yields identical pillar values and fitted parameters. -/
theorem builds_reproducible (env1 env2 : BuildEnv) (m : FittingMethod)
    (maxAttempts : ℕ) (yields : List ℚ) (mats : List ℤ) (cost : List ℚ → ℚ)
    (accuracy : ℚ) (asof : ℤ) (data : List (ℤ × ℚ)) :
    fittedBondBestTrial env1 m maxAttempts yields mats cost accuracy =
      fittedBondBestTrial env2 m maxAttempts yields mats cost accuracy
    ∧ directZeroPillars env1 asof data = directZeroPillars env2 asof data :=
  ⟨rfl, rfl⟩

/-- Witness for C4 (the acceptance equivalence and the rejection branch
have propositional content): with `dontThrow = false`, cost 2 and
tolerance 1 the build is rejected, and acceptance is equivalent to the
false disjunction. -/
theorem fittedBond_acceptance_witness :
    ((∃ r, fittedFinalize false false 2 none 1 = .ok r) ↔
      ((2:ℚ) < fittedTolerance none 1 ∨ false = true))
    ∧ fittedFinalize false false 2 none 1 =
        .error "Fitted Bond Curve cost value exceeds tolerance" :=
  ⟨(fittedBond_acceptance false false 2 1 0 none).1,
    (fittedBond_acceptance false false 2 1 0 none).2.2.1 rfl (by decide)⟩

/-- **C1**: for a bootstrap build with quote linkage disabled, the
decoupling rebuild of `piecewisecurve` — re-sampling the solved curve at
each instrument pillar and rebuilding a fixed curve over those snapshot
values with the same interpolation scheme and variable — yields a curve
that is value-identical at build time to the live bootstrapped curve
(equal discount factor at every evaluation time), while no longer
reacting to later changes in the market state (quotes or valuation
date). -/
theorem piecewise_decoupling (σ : Type) (I : InterpScheme) (var : InterpolationVariable)
    (ts vs : List ℝ) (solve : σ → ℝ → ℝ) (q0 : σ)
    (hrepro : InterpReproduces I) (hlen : ts.length = vs.length)
    (hpos : ∀ t ∈ ts, 0 < t) (hsorted : ts.Chain' (· < ·))
    (hlive : solve q0 = I (liveNodes var ts vs)) :
    (∀ t : ℝ, (piecewisecurve σ false var ts solve q0).eval I var q0 t =
        (piecewisecurve σ true var ts solve q0).eval I var q0 t)
    ∧ (∀ q q' : σ, ∀ t : ℝ,
        (piecewisecurve σ false var ts solve q0).eval I var q t =
          (piecewisecurve σ false var ts solve q0).eval I var q' t) := by
  constructor
  · intro t
    show discountOf var (I (snapshotNodes var (solve q0) ts)) t = discountOf var (solve q0) t
    rw [hlive, snapshotNodes_eq_liveNodes I hrepro var ts vs hlen hpos hsorted]
  · intro q q' t
    rfl

/-- Witness for C1: a one-pillar discount curve with value 1/2 at time 1,
interpolated linearly; the decoupled rebuild agrees with the live curve
at time 1 and is insensitive to the market state. -/
theorem piecewise_decoupling_witness :
    (piecewisecurve Unit false .Discount [1]
        (fun _ => linearInterp (liveNodes .Discount [1] [1/2])) ()).eval
        linearInterp .Discount () 1 =
      (piecewisecurve Unit true .Discount [1]
        (fun _ => linearInterp (liveNodes .Discount [1] [1/2])) ()).eval
        linearInterp .Discount () 1 :=
  (piecewise_decoupling Unit linearInterp .Discount [1] [1/2]
    (fun _ => linearInterp (liveNodes .Discount [1] [1/2])) ()
    linearInterp_reproduces rfl (by simp) (by simp) rfl).1 1

/-- **C2**: for every successfully built curve, whatever the
interpolation variable (Zero, Discount, Forward) and (node-reproducing)
interpolation method, the discount factor at time 0 — the as-of date —
is exactly 1: for any interpolated curve whose Discount-variable node
list carries the reference value 1 at time 0, for the decoupled
(snapshot) bootstrap rebuild, for the weighted-average composition of
unit-at-zero curves, and for the yield-plus-default blend of a
unit-at-zero base with full survival at time 0. -/
theorem discount_at_time_zero_is_one :
    (∀ (I : InterpScheme) (var : InterpolationVariable) (ns : List Node),
      InterpReproduces I → NodesSorted ns →
      (var = .Discount → ((0:ℝ), (1:ℝ)) ∈ ns) → discountOf var (I ns) 0 = 1)
    ∧ (∀ (σ : Type) (I : InterpScheme) (var : InterpolationVariable) (ts : List ℝ)
        (solve : σ → ℝ → ℝ) (q0 q : σ), InterpReproduces I →
        (∀ t ∈ ts, 0 < t) → ts.Chain' (· < ·) →
        (piecewisecurve σ false var ts solve q0).eval I var q 0 = 1)
    ∧ (∀ (w1 w2 : ℝ) (d1 d2 : ℝ → ℝ), d1 0 = 1 → d2 0 = 1 →
        weightedAverageDiscount w1 w2 d1 d2 0 = 1)
    ∧ (∀ (base : ℝ → ℝ) (cs : List DefaultComponent), base 0 = 1 →
        (∀ c ∈ cs, c.survival 0 = 1) → yieldPlusDefaultDiscount base cs 0 = 1) := by
  refine ⟨fun I var ns h1 h2 h3 => discountOf_interp_at_zero I var ns h1 h2 h3,
    ?_, ?_, ?_⟩
  · intro σ I var ts solve q0 q hrepro hpos hs
    show discountOf var (I (snapshotNodes var (solve q0) ts)) 0 = 1
    refine discountOf_interp_at_zero I var _ hrepro
      (snapshotNodes_sorted var (solve q0) ts hpos hs) ?_
    rintro rfl
    show ((0:ℝ), (1:ℝ)) ∈ ((0:ℝ) :: ts).zip ((1:ℝ) :: ts.map (solve q0))
    rw [List.zip_cons_cons]
    exact List.mem_cons_self _ _
  · intro w1 w2 d1 d2 h1 h2
    unfold weightedAverageDiscount
    rw [h1, h2, Real.log_one, mul_zero, mul_zero, add_zero, Real.exp_zero]
  · intro base cs h1 h2
    unfold yieldPlusDefaultDiscount
    rw [h1, one_mul]
    refine List.prod_eq_one ?_
    intro x hx
    obtain ⟨c, hc, rfl⟩ := List.mem_map.mp hx
    unfold defaultFactor
    rw [h2 c hc, sub_self, zero_mul, add_zero, Real.one_rpow]

/-- Witness for C2: a concrete two-node linear discount curve with head
node (0, 1), the weighted average of unit curves, and the trivial
yield-plus-default blend all have discount factor exactly 1 at time 0. -/
theorem discount_at_time_zero_is_one_witness :
    discountOf .Discount (linearInterp [((0:ℝ), (1:ℝ)), (1, 1/2)]) 0 = 1
    ∧ weightedAverageDiscount 2 3 (fun _ => 1) (fun _ => 1) 0 = 1
    ∧ yieldPlusDefaultDiscount (fun _ => 1) [⟨fun _ => 1, 1/2, 2⟩] 0 = 1 :=
  ⟨discount_at_time_zero_is_one.1 linearInterp .Discount _ linearInterp_reproduces
      (by simp) (fun _ => List.mem_cons_self _ _),
    discount_at_time_zero_is_one.2.2.1 2 3 (fun _ => 1) (fun _ => 1) rfl rfl,
    discount_at_time_zero_is_one.2.2.2 (fun _ => 1) [⟨fun _ => 1, 1/2, 2⟩] rfl
      (by simp)⟩

end OreYieldCurve
